import Mathlib

/-!
Verification of the stroke-detection and metronome core of the
PercussionPracticeTool repository.

The development shallowly embeds, over the reals:

* `public/worklets/stroke-processor.js` — the `StrokeProcessor` audio-worklet
  (signal frame analysis, adaptive floor, onset classification, post-onset
  measurement window), as `StrokeProcessor.process` and
  `StrokeProcessor.accumulateMeasure`;
* the main-thread `ScriptProcessor` fallback of `useStrokeDetector`
  (`src/types.ts` second part, `onaudioprocess` and its closures), as
  `Fallback.process`;
* the metronome scheduling loop and click synthesis of
  `src/hooks/useMetronome.ts`, as `Metronome.ScheduleRun` / `createClick`.

Floating-point numbers are modelled as real numbers.  Message posting is
modelled by returning the list of emitted messages; the randomly sampled
telemetry messages (diagnostic only) are not part of the event model.
-/

namespace Percussion

noncomputable section

open Classical

/-- The dB conversion `20 * Math.log10(value + 1e-9)` used everywhere in the
detector (stroke-processor.js lines 50-51, 80-81, 85; types.ts fallback). -/
def dbOf (value : ℝ) : ℝ := 20 * Real.logb 10 (value + 1e-9)

/-- The running sum of squared samples of a block (the `frameEnergy` /
`energy` accumulation loops). -/
def frameEnergy (data : List ℝ) : ℝ := (data.map fun s => s * s).sum

/-- The running peak of absolute sample values of a block, starting from a
given accumulator (the `peakAbs` update `if (abs > peakAbs) peakAbs = abs`). -/
def peakFold (init : ℝ) (data : List ℝ) : ℝ := data.foldl (fun p s => max p |s|) init

/-- The `peakAbs` of one whole block (accumulator starts at 0). -/
def peakAbsOf (data : List ℝ) : ℝ := peakFold 0 data

/-- The block RMS `Math.sqrt(frameEnergy / data.length)` (stroke-processor.js line 79,
types.ts line 272). -/
def rmsOf (data : List ℝ) : ℝ := Real.sqrt (frameEnergy data / data.length)

/-- The worklet threshold `Math.max(floorDb + this.sensitivity * 6, this.minDb)`
(stroke-processor.js line 86). -/
def dynamicThresholdDb (floorDb sensitivity minDb : ℝ) : ℝ :=
  max (floorDb + sensitivity * 6) minDb

/-- The threshold `Math.max(floorDb + merged.sensitivity * 6, merged.minDb)`
of the ScriptProcessor fallback (types.ts line 277). -/
def fallbackThresholdDb (floorDb sensitivity minDb : ℝ) : ℝ :=
  max (floorDb + sensitivity * 6) minDb

/-- The worklet's acceptance condition (stroke-processor.js lines 89-90):
`isOverThreshold = db > dynamicThresholdDb && rms > this.energySMA * this.sensitivity`
gated by `nowMs - this.lastHitTime > this.debounceMs`.  Here `energySMA` is the
floor after the current block's exponential-moving-average update and
`db = dbOf rms`, `floorDb = dbOf energySMA` as in the source. -/
def workletIsOnset (sensitivity minDb debounceMs energySMA rms nowMs lastHitTime : ℝ) :
    Prop :=
  dbOf rms > dynamicThresholdDb (dbOf energySMA) sensitivity minDb ∧
    rms > energySMA * sensitivity ∧ nowMs - lastHitTime > debounceMs

/-- The fallback's acceptance condition (types.ts line 279):
`db > thresholdDb && now - lastHitRef.current > merged.debounceMs`.
There is no linear-RMS conjunct in this path. -/
def fallbackIsOnset (sensitivity minDb debounceMs floorRef rms now lastHit : ℝ) : Prop :=
  dbOf rms > fallbackThresholdDb (dbOf floorRef) sensitivity minDb ∧
    now - lastHit > debounceMs

namespace StrokeProcessor

/-- The worklet's `this.pendingMeasure` record (stroke-processor.js lines 93-99). -/
structure Pending where
  seq : ℕ
  remaining : ℕ
  sumSquares : ℝ
  peakAbs : ℝ
  count : ℕ

/-- The mutable fields of the `StrokeProcessor` instance that the claims
depend on (constructor, lines 6-16).  `measureWindowMs` only feeds
`measureWindowFrames`, which is kept directly; `runId` and the unused
`cooldownFrames` are omitted. -/
structure State where
  energySMA : ℝ
  alpha : ℝ
  sensitivity : ℝ
  debounceMs : ℝ
  minDb : ℝ
  lastHitTime : ℝ
  measureWindowFrames : ℕ
  pendingMeasure : Option Pending
  hitSeq : ℕ

/-- Messages posted on the worklet port (`stroke`, lines 100-110, and
`stroke-measure`, lines 52-59).  Randomly sampled `telemetry` messages are
not modelled. -/
inductive Msg where
  | stroke (seq : ℕ) (db peakDb rms atMs floorDb thresholdDb : ℝ)
  | strokeMeasure (seq : ℕ) (rms db peakDb : ℝ)

/-- Whether a posted message is a stroke-onset event. -/
def Msg.isStroke : Msg → Bool
  | .stroke .. => true
  | .strokeMeasure .. => false

/-- The `_accumulateMeasure(data)` routine (stroke-processor.js lines 36-62): feed up to
`remaining` samples of the block into the pending window's accumulators; on
reaching zero, finalize and post a `stroke-measure` message. -/
def accumulateMeasure (st : State) (data : List ℝ) : State × List Msg :=
  match st.pendingMeasure with
  | none => (st, [])
  | some pending =>
    let toProcess := min pending.remaining data.length
    let chunk := data.take toProcess
    let sumSquares := pending.sumSquares + frameEnergy chunk
    let count := pending.count + toProcess
    let peakAbs := peakFold pending.peakAbs chunk
    let remaining := pending.remaining - toProcess
    if remaining = 0 then
      let rms := Real.sqrt (sumSquares / (max 1 count : ℕ))
      ({ st with pendingMeasure := none },
        [Msg.strokeMeasure pending.seq rms (dbOf rms) (dbOf peakAbs)])
    else
      ({ st with
          pendingMeasure := some { pending with
            sumSquares := sumSquares, count := count,
            peakAbs := peakAbs, remaining := remaining } }, [])

/-- The `process(inputs, _outputs, _parameters)` callback on the selected channel
(stroke-processor.js lines 64-127), with the block's samples and the
processing-clock time `nowMs = currentTime * 1000` as inputs.  The
zero-length guard of line 70 is the `data.length = 0` early return; the
missing-input guards of lines 65-70 are modelled by `processRaw` below. -/
def process (st : State) (data : List ℝ) (nowMs : ℝ) : State × List Msg :=
  if data.length = 0 then (st, [])
  else
    let rms := rmsOf data
    let db := dbOf rms
    let peakDb := dbOf (peakAbsOf data)
    let energySMA := st.alpha * rms + (1 - st.alpha) * st.energySMA
    let floorDb := dbOf energySMA
    let thresholdDb := dynamicThresholdDb floorDb st.sensitivity st.minDb
    let st1 : State := { st with energySMA := energySMA }
    if workletIsOnset st.sensitivity st.minDb st.debounceMs energySMA rms nowMs
        st.lastHitTime then
      let seq := st1.hitSeq + 1
      let st2 : State :=
        { st1 with
          lastHitTime := nowMs, hitSeq := seq,
          pendingMeasure := some ⟨seq, st.measureWindowFrames, 0, 0, 0⟩ }
      let acc := accumulateMeasure st2 data
      (acc.1, Msg.stroke seq db peakDb rms nowMs floorDb thresholdDb :: acc.2)
    else
      let acc := accumulateMeasure st1 data
      (acc.1, acc.2)

/-- The raw entry point including the guards
`if (!input || input.length === 0) return true` and
`if (!data || data.length === 0) return true` (lines 65-70): `input` is the
(possibly absent) first input's channel list, `data` its first channel. -/
def processRaw (st : State) (input : Option (List (List ℝ))) (nowMs : ℝ) :
    State × List Msg :=
  match input with
  | none => (st, [])
  | some channels =>
    match channels with
    | [] => (st, [])
    | data :: _ => process st data nowMs

/-- A detection run: fold `process` over a list of (block, nowMs) pairs,
collecting posted messages in order. -/
def run (st : State) (blocks : List (List ℝ × ℝ)) : State × List Msg :=
  match blocks with
  | [] => (st, [])
  | (data, nowMs) :: rest =>
    let step := process st data nowMs
    let tail := run step.1 rest
    (tail.1, step.2 ++ tail.2)

/-- The processing-clock timestamps of the stroke onsets in a message list. -/
def strokeTimes (msgs : List Msg) : List ℝ :=
  msgs.filterMap fun m =>
    match m with
    | .stroke _ _ _ _ atMs _ _ => some atMs
    | .strokeMeasure .. => none

/-- A message list contains at least one stroke-onset event. -/
def emitsStroke (msgs : List Msg) : Prop := ∃ m ∈ msgs, m.isStroke = true

/-- The measurement-window bookkeeping invariant: accumulated sample count
plus samples still to accumulate equal the configured window size. -/
def PendingInv (mwf : ℕ) (p : Pending) : Prop := p.count + p.remaining = mwf

end StrokeProcessor

namespace Fallback

open StrokeProcessor (Pending Msg)

/-- The `DetectorConfig` of the hook (types.ts lines 57-63). -/
structure DetectorConfig where
  sensitivity : ℝ
  debounceMs : ℝ
  minDb : ℝ
  alpha : ℝ
  measureWindowMs : ℝ

/-- The hook's `defaultConfig` (types.ts lines 65-71). -/
def defaultConfig : DetectorConfig :=
  { sensitivity := 1.3, debounceMs := 15, minDb := -60, alpha := 0.1,
    measureWindowMs := 30 }

/-- An argument of `updateConfig`/`start`: a configuration object in which
each field is optionally present. -/
structure ConfigPatch where
  sensitivity : Option ℝ := none
  debounceMs : Option ℝ := none
  minDb : Option ℝ := none
  alpha : Option ℝ := none
  measureWindowMs : Option ℝ := none

/-- The object-spread merge `{ ...prev, ...next }` used by `updateConfig`
(types.ts line 330) and by `start` (line 144). -/
def mergeConfig (prev : DetectorConfig) (next : ConfigPatch) : DetectorConfig :=
  { sensitivity := next.sensitivity.getD prev.sensitivity,
    debounceMs := next.debounceMs.getD prev.debounceMs,
    minDb := next.minDb.getD prev.minDb,
    alpha := next.alpha.getD prev.alpha,
    measureWindowMs := next.measureWindowMs.getD prev.measureWindowMs }

/-- The window size `Math.max(1, Math.round((ctx.sampleRate * merged.measureWindowMs) / 1000))`
(types.ts lines 222-225), at the requested 48000 Hz sample rate. -/
def measureWindowFrames (cfg : DetectorConfig) : ℕ :=
  (max 1 (round (48000 * cfg.measureWindowMs / 1000))).toNat

/-- The mutable refs and locals used by the ScriptProcessor path:
`floorRef`, `lastHitRef`, `seqRef` and the local `pendingMeasure`. -/
structure State where
  floorRef : ℝ
  lastHitRef : ℝ
  seqRef : ℕ
  pendingMeasure : Option Pending

/-- The `accumulateMeasure(input)` closure of the fallback path
(types.ts lines 235-261). -/
def accumulateMeasure (st : State) (input : List ℝ) : State × List Msg :=
  match st.pendingMeasure with
  | none => (st, [])
  | some pending =>
    let toProcess := min pending.remaining input.length
    let chunk := input.take toProcess
    let sumSquares := pending.sumSquares + frameEnergy chunk
    let count := pending.count + toProcess
    let peakAbs := peakFold pending.peakAbs chunk
    let remaining := pending.remaining - toProcess
    if remaining = 0 then
      let rmsWindow := Real.sqrt (sumSquares / (max 1 count : ℕ))
      ({ st with pendingMeasure := none },
        [Msg.strokeMeasure pending.seq rmsWindow (dbOf rmsWindow) (dbOf peakAbs)])
    else
      ({ st with
          pendingMeasure := some { pending with
            sumSquares := sumSquares, count := count,
            peakAbs := peakAbs, remaining := remaining } }, [])

/-- One `processor.onaudioprocess` callback of the fallback path
(types.ts lines 262-307), classifying with configuration `cfg` and a
measurement window of `mwf` frames (both captured at start time).  There is
no zero-length guard and no linear-RMS conjunct in this path. -/
def process (cfg : DetectorConfig) (mwf : ℕ) (st : State) (input : List ℝ)
    (now : ℝ) : State × List Msg :=
  let rms := rmsOf input
  let floorRef := cfg.alpha * rms + (1 - cfg.alpha) * st.floorRef
  let floorDb := dbOf floorRef
  let db := dbOf rms
  let peakDb := dbOf (peakAbsOf input)
  let thresholdDb := fallbackThresholdDb floorDb cfg.sensitivity cfg.minDb
  let st1 : State := { st with floorRef := floorRef }
  if fallbackIsOnset cfg.sensitivity cfg.minDb cfg.debounceMs floorRef rms now
      st.lastHitRef then
    let seq := st1.seqRef + 1
    let st2 : State :=
      { st1 with
        lastHitRef := now, seqRef := seq,
        pendingMeasure := some ⟨seq, mwf, 0, 0, 0⟩ }
    let acc := accumulateMeasure st2 input
    (acc.1, Msg.stroke seq db peakDb rms now floorDb thresholdDb :: acc.2)
  else
    let acc := accumulateMeasure st1 input
    (acc.1, acc.2)

/-- The configuration plumbing of a running fallback session: the start-time
closure `merged` (types.ts line 144), which the `onaudioprocess` closure
reads, and the React `config` state, which `updateConfig` rewrites.  On the
fallback path `workletNodeRef.current` is null, so the config-posting effect
(types.ts lines 135-139) posts to no one. -/
structure Session where
  merged : DetectorConfig
  reactConfig : DetectorConfig

/-- A `start(customConfig)` call reaching the fallback branch: both the closure
capture and the React state hold `{ ...config, ...customConfig }`
(types.ts lines 144-148). -/
def startSession (config : DetectorConfig) (customConfig : ConfigPatch) : Session :=
  let merged := mergeConfig config customConfig
  { merged := merged, reactConfig := merged }

/-- The `updateConfig(next)` action (types.ts line 330): merges into the React config
state; the fallback closure's `merged` is untouched. -/
def updateConfig (s : Session) (next : ConfigPatch) : Session :=
  { s with reactConfig := mergeConfig s.reactConfig next }

/-- The next `onaudioprocess` callback of a running fallback session: the
closure classifies with the start-time `merged` configuration. -/
def sessionProcess (s : Session) (st : State) (input : List ℝ) (now : ℝ) :
    State × List Msg :=
  process s.merged (measureWindowFrames s.merged) st input now

end Fallback

namespace Metronome

/-- The `MetronomeConfig` (useMetronome.ts lines 3-7); `subdivision` is an
integer ≥ 1 per the data model. -/
structure Config where
  tempo : ℝ
  subdivision : ℕ
  volume : ℝ

/-- The gain automation and oscillator schedule created by one `createClick`
call (useMetronome.ts lines 9-19). -/
structure Click where
  frequency : ℝ
  startValue : ℝ
  startAt : ℝ
  attackTarget : ℝ
  attackAt : ℝ
  decayTarget : ℝ
  decayAt : ℝ
  oscStart : ℝ
  oscStop : ℝ

/-- The `createClick(ctx, time, accent, volume)` synthesis (useMetronome.ts lines 9-19). -/
def createClick (time : ℝ) (accent : Bool) (volume : ℝ) : Click :=
  { frequency := if accent then 1200 else 850,
    startValue := 0.0001, startAt := time,
    attackTarget := volume, attackAt := time + 0.001,
    decayTarget := 0.0001, decayAt := time + 0.08,
    oscStart := time, oscStop := time + 0.1 }

/-- The two values handed to `exponentialRampToValueAtTime` as ramp targets
(useMetronome.ts lines 14-15). -/
def Click.rampTargets (c : Click) : List ℝ := [c.attackTarget, c.decayTarget]

/-- The scheduler's persistent state: `nextNoteTimeRef` and `beatCountRef`. -/
structure SchedState where
  nextNoteTime : ℝ
  beatCount : ℕ

/-- One scheduled beat: its audio-clock time and accent flag. -/
structure Beat where
  time : ℝ
  isAccent : Bool

/-- The beat interval `60 / localConfig.tempo / localConfig.subdivision` (useMetronome.ts
line 39). -/
def secondsPerBeat (cfg : Config) : ℝ := 60 / cfg.tempo / cfg.subdivision

/-- One invocation of the `schedule` callback (useMetronome.ts lines 31-44)
at audio-clock time `t`: the loop
`while (nextNoteTime < ctx.currentTime + lookahead)` with lookahead 0.1 s
creates a click at `nextNoteTime`, accented when
`beatCount % subdivision === 0`, then advances `nextNoteTime` by
`secondsPerBeat` and increments `beatCount`.  Modelled as a big-step
relation with one rule per loop outcome. -/
inductive ScheduleRun (cfg : Config) : SchedState → ℝ → SchedState → List Beat → Prop
  | done {st : SchedState} {t : ℝ} :
      ¬ st.nextNoteTime < t + 0.1 → ScheduleRun cfg st t st []
  | step {st : SchedState} {t : ℝ} {st' : SchedState} {beats : List Beat} :
      st.nextNoteTime < t + 0.1 →
      ScheduleRun cfg ⟨st.nextNoteTime + secondsPerBeat cfg, st.beatCount + 1⟩ t
        st' beats →
      ScheduleRun cfg st t st'
        (⟨st.nextNoteTime, st.beatCount % cfg.subdivision == 0⟩ :: beats)

/-- A run of the scheduling loop across successive animation-frame
re-entries at audio-clock times `ts` (`requestAnimationFrame(schedule)`). -/
inductive ScheduleTrace (cfg : Config) :
    SchedState → List ℝ → SchedState → List Beat → Prop
  | nil {st : SchedState} : ScheduleTrace cfg st [] st []
  | cons {st : SchedState} {t : ℝ} {ts : List ℝ} {st1 st2 : SchedState}
      {beats1 beats2 : List Beat} :
      ScheduleRun cfg st t st1 beats1 →
      ScheduleTrace cfg st1 ts st2 beats2 →
      ScheduleTrace cfg st (t :: ts) st2 (beats1 ++ beats2)

end Metronome

/-- Modelled from the spec (§4.3): the spec's threshold formula
`thresholdDb = max(floorDb + sensitivity*6, minDb)`, written from the spec's
words for the refinement comparison with the code. -/
def specThresholdDb (floorDb sensitivity minDb : ℝ) : ℝ :=
  max (floorDb + sensitivity * 6) minDb

/-- Modelled from the spec (§4.2-4.3): the spec's onset rule
`isOnset = (blockDb > thresholdDb) AND (blockRms > linearRms * sensitivity)
AND (nowMs - lastAcceptedOnsetMs > debounceMs)`, with
`floorDb = 20*log10(linearRms + ε)` per §4.2, written from the spec's words
for the refinement comparison with the code. -/
def specIsOnset (blockDb blockRms linearRms sensitivity minDb nowMs
    lastAcceptedOnsetMs debounceMs : ℝ) : Prop :=
  blockDb > specThresholdDb (dbOf linearRms) sensitivity minDb ∧
    blockRms > linearRms * sensitivity ∧
    nowMs - lastAcceptedOnsetMs > debounceMs

/-! ### Arithmetic facts about the dB conversion -/

lemma twenty_logb_gt_iff (u v c : ℝ) (hu : 0 < u) (hv : 0 < v) :
    20 * Real.logb 10 u > 20 * Real.logb 10 v + c ↔ v * (10:ℝ) ^ (c / 20) < u := by
  have h10 : (1:ℝ) < 10 := by norm_num
  rw [show (20 * Real.logb 10 u > 20 * Real.logb 10 v + c) ↔
      (Real.logb 10 v + c / 20 < Real.logb 10 u) by constructor <;> intro h <;> linarith]
  rw [Real.lt_logb_iff_rpow_lt h10 hu]
  rw [Real.rpow_add (by norm_num : (0:ℝ) < 10),
    Real.rpow_logb (by norm_num) (by norm_num) hv]

lemma dbOf_gt_iff (x y c : ℝ) (hx : 0 ≤ x) (hy : 0 ≤ y) :
    dbOf x > dbOf y + c ↔ (y + 1e-9) * (10:ℝ) ^ (c / 20) < x + 1e-9 := by
  unfold dbOf
  exact twenty_logb_gt_iff _ _ c (by linarith) (by linarith)

lemma dbOf_le_iff (x y c : ℝ) (hx : 0 ≤ x) (hy : 0 ≤ y) :
    dbOf x ≤ dbOf y + c ↔ x + 1e-9 ≤ (y + 1e-9) * (10:ℝ) ^ (c / 20) := by
  rw [← not_lt, ← not_lt (b := x + 1e-9)]
  exact not_congr (dbOf_gt_iff x y c hx hy)

lemma dbOf_gt_const_iff (x m : ℝ) (hx : 0 ≤ x) :
    dbOf x > m ↔ (10:ℝ) ^ (m / 20) < x + 1e-9 := by
  unfold dbOf
  have h10 : (1:ℝ) < 10 := by norm_num
  rw [show (20 * Real.logb 10 (x + 1e-9) > m) ↔
      (m / 20 < Real.logb 10 (x + 1e-9)) by constructor <;> intro h <;> linarith]
  exact Real.lt_logb_iff_rpow_lt h10 (by linarith)

lemma log_ten_ge_two : (2:ℝ) ≤ Real.log 10 := by
  rw [Real.le_log_iff_exp_le (by norm_num)]
  have h := Real.exp_one_lt_d9
  have h2 : Real.exp 2 = Real.exp 1 * Real.exp 1 := by
    rw [← Real.exp_add]; norm_num
  nlinarith [Real.exp_pos 1]

lemma one_add_sq_le_rpow (s : ℝ) (hs : 0 ≤ s) :
    (1 + 0.3 * s) ^ 2 ≤ (10:ℝ) ^ (0.3 * s) := by
  have h1 : (10:ℝ) ^ (0.3 * s) = Real.exp (Real.log 10 * (0.3 * s)) :=
    Real.rpow_def_of_pos (by norm_num) _
  have h2 : Real.exp (0.6 * s) ≤ Real.exp (Real.log 10 * (0.3 * s)) := by
    apply Real.exp_le_exp.2
    nlinarith [log_ten_ge_two]
  have h3 : Real.exp (0.6 * s) = Real.exp (0.3 * s) * Real.exp (0.3 * s) := by
    rw [← Real.exp_add]; ring_nf
  have h4 : 1 + 0.3 * s ≤ Real.exp (0.3 * s) := by
    have := Real.add_one_le_exp (0.3 * s); linarith
  have h5 : (1 + 0.3 * s) ^ 2 ≤ Real.exp (0.3 * s) * Real.exp (0.3 * s) := by
    have hp : (0:ℝ) ≤ 1 + 0.3 * s := by linarith
    nlinarith
  linarith [h1 ▸ h2]

lemma rpow_ten_mono {a b : ℝ} (h : a ≤ b) : (10:ℝ) ^ a ≤ (10:ℝ) ^ b :=
  Real.rpow_le_rpow_of_exponent_le (by norm_num) h

lemma rpow_half_lt : (10:ℝ) ^ ((1:ℝ) / 2) < 3.2 := by
  have h : ((10:ℝ) ^ ((1:ℝ) / 2)) ^ 2 = 10 := by
    rw [← Real.rpow_natCast ((10:ℝ) ^ ((1:ℝ) / 2)) 2, ← Real.rpow_mul (by norm_num)]
    norm_num
  nlinarith [Real.rpow_nonneg (by norm_num : (0:ℝ) ≤ 10) ((1:ℝ) / 2)]

lemma rpow_ten_one : (10:ℝ) ^ (1:ℝ) = 10 := Real.rpow_one 10

lemma rpow_neg_two : (10:ℝ) ^ (-(2:ℝ)) = 1 / 100 := by
  rw [show (-(2:ℝ)) = -((2:ℕ):ℝ) by norm_num, Real.rpow_neg (by norm_num),
    Real.rpow_natCast]
  norm_num

lemma logb_ten_epsilon : Real.logb 10 1e-9 = -9 := by
  have h : (1e-9:ℝ) = (10:ℝ) ^ (-(9:ℝ)) := by
    rw [show (-(9:ℝ)) = -((9:ℕ):ℝ) by norm_num, Real.rpow_neg (by norm_num),
      Real.rpow_natCast]
    norm_num
  rw [h, Real.logb_rpow (by norm_num) (by norm_num)]

lemma dbOf_zero : dbOf 0 = -180 := by
  unfold dbOf
  rw [zero_add, logb_ten_epsilon]
  norm_num

lemma dbOf_mono {x y : ℝ} (hx : 0 ≤ x) (hxy : x ≤ y) : dbOf x ≤ dbOf y := by
  unfold dbOf
  have := Real.logb_le_logb_of_le (by norm_num : (1:ℝ) < 10)
    (by linarith : (0:ℝ) < x + 1e-9) (by linarith : x + 1e-9 ≤ y + 1e-9)
  linarith

lemma dbOf_ge_neg180 {x : ℝ} (hx : 0 ≤ x) : -180 ≤ dbOf x :=
  dbOf_zero ▸ dbOf_mono le_rfl hx

/-- The dB-domain condition of the classifier implies the linear-RMS ratio
condition: if the block is more than `6*sensitivity` dB above the floor then
its RMS exceeds `floor * sensitivity` outright, for any nonnegative
sensitivity and floor. -/
lemma db_gap_implies_linear (s floorV rms : ℝ) (hs : 0 ≤ s) (hf : 0 ≤ floorV)
    (hr : 0 ≤ rms) (h : dbOf rms > dbOf floorV + s * 6) : rms > floorV * s := by
  rw [dbOf_gt_iff rms floorV (s * 6) hr hf] at h
  rw [show s * 6 / 20 = 0.3 * s by ring] at h
  have h2 := one_add_sq_le_rpow s hs
  have h3 : (floorV + 1e-9) * (1 + 0.3 * s) ^ 2 ≤
      (floorV + 1e-9) * (10:ℝ) ^ (0.3 * s) := by
    apply mul_le_mul_of_nonneg_left h2 (by linarith)
  nlinarith [sq_nonneg (0.3 * s - 2 / 3), mul_nonneg hf (sq_nonneg (0.3 * s - 2 / 3)),
    mul_nonneg hs hs]

/-! ### Basic facts about the embedded processors -/

lemma rmsOf_nonneg (data : List ℝ) : 0 ≤ rmsOf data := Real.sqrt_nonneg _

lemma rmsOf_nil : rmsOf [] = 0 := by
  unfold rmsOf frameEnergy
  simp

namespace StrokeProcessor

lemma not_emitsStroke_of {l : List Msg} (h : ∀ m ∈ l, m.isStroke = false) :
    ¬ emitsStroke l := by
  rintro ⟨m, hm, hs⟩
  rw [h m hm] at hs
  cases hs

lemma accumulate_msgs_not_stroke (st : State) (data : List ℝ) :
    ∀ m ∈ (accumulateMeasure st data).2, m.isStroke = false := by
  unfold accumulateMeasure
  rcases h : st.pendingMeasure with _ | p <;> simp [h]
  split <;> simp [Msg.isStroke]

/-- The worklet posts a `stroke` message for a block exactly when the
classifier condition (evaluated on the post-update floor) holds. -/
lemma emitsStroke_process_iff (st : State) (data : List ℝ) (nowMs : ℝ)
    (hne : data ≠ []) :
    emitsStroke (process st data nowMs).2 ↔
      workletIsOnset st.sensitivity st.minDb st.debounceMs
        (st.alpha * rmsOf data + (1 - st.alpha) * st.energySMA) (rmsOf data)
        nowMs st.lastHitTime := by
  unfold process
  rw [if_neg (mt List.length_eq_zero.mp hne)]
  dsimp only
  by_cases h : workletIsOnset st.sensitivity st.minDb st.debounceMs
      (st.alpha * rmsOf data + (1 - st.alpha) * st.energySMA) (rmsOf data)
      nowMs st.lastHitTime
  · rw [if_pos h]
    exact iff_of_true ⟨_, List.mem_cons_self _ _, rfl⟩ h
  · rw [if_neg h]
    exact iff_of_false (not_emitsStroke_of (accumulate_msgs_not_stroke _ _)) h

end StrokeProcessor

namespace Fallback

open StrokeProcessor (Msg emitsStroke not_emitsStroke_of)

lemma fb_accumulate_msgs_not_stroke (st : State) (input : List ℝ) :
    ∀ m ∈ (accumulateMeasure st input).2, m.isStroke = false := by
  unfold accumulateMeasure
  rcases h : st.pendingMeasure with _ | p <;> simp [h]
  split <;> simp [Msg.isStroke]

/-- The fallback path fires a stroke for a block exactly when its (two
conjunct) classifier condition holds on the post-update floor. -/
lemma fb_emitsStroke_process_iff (cfg : DetectorConfig) (mwf : ℕ) (st : State)
    (input : List ℝ) (now : ℝ) :
    emitsStroke (process cfg mwf st input now).2 ↔
      fallbackIsOnset cfg.sensitivity cfg.minDb cfg.debounceMs
        (cfg.alpha * rmsOf input + (1 - cfg.alpha) * st.floorRef) (rmsOf input)
        now st.lastHitRef := by
  unfold process
  dsimp only
  by_cases h : fallbackIsOnset cfg.sensitivity cfg.minDb cfg.debounceMs
      (cfg.alpha * rmsOf input + (1 - cfg.alpha) * st.floorRef) (rmsOf input)
      now st.lastHitRef
  · rw [if_pos h]
    exact iff_of_true ⟨_, List.mem_cons_self _ _, rfl⟩ h
  · rw [if_neg h]
    exact iff_of_false (not_emitsStroke_of (fb_accumulate_msgs_not_stroke _ _)) h

end Fallback


/-! ### Claim C1: dual-path classification equivalence -/

/-- Claim C1: the worklet path and the main-thread fallback path compute the
same `thresholdDb` formula, their acceptance conditions coincide on every
block metric (for the admissible nonnegative sensitivities and floors: the
fallback omits the explicit linear-RMS conjunct, but its dB condition
already implies it), and consequently, from corresponding states, the two
step functions fire a stroke on exactly the same blocks. -/
theorem c1_dual_path_classification_equivalence :
    (∀ floorDb sensitivity minDb : ℝ,
        dynamicThresholdDb floorDb sensitivity minDb
          = fallbackThresholdDb floorDb sensitivity minDb) ∧
    (∀ sensitivity minDb debounceMs floorV rms nowMs lastHit : ℝ,
        0 ≤ sensitivity → 0 ≤ floorV → 0 ≤ rms →
        (workletIsOnset sensitivity minDb debounceMs floorV rms nowMs lastHit ↔
          fallbackIsOnset sensitivity minDb debounceMs floorV rms nowMs lastHit)) ∧
    (∀ (st : StrokeProcessor.State) (cfg : Fallback.DetectorConfig) (mwf : ℕ)
        (fst : Fallback.State) (data : List ℝ) (now : ℝ),
        st.sensitivity = cfg.sensitivity → st.minDb = cfg.minDb →
        st.debounceMs = cfg.debounceMs → st.alpha = cfg.alpha →
        st.energySMA = fst.floorRef → st.lastHitTime = fst.lastHitRef →
        0 ≤ cfg.sensitivity → 0 ≤ cfg.alpha → cfg.alpha ≤ 1 → 0 ≤ fst.floorRef →
        (StrokeProcessor.emitsStroke (StrokeProcessor.process st data now).2 ↔
          StrokeProcessor.emitsStroke (Fallback.process cfg mwf fst data now).2)) := by
  have key : ∀ sensitivity minDb debounceMs floorV rms nowMs lastHit : ℝ,
      0 ≤ sensitivity → 0 ≤ floorV → 0 ≤ rms →
      (workletIsOnset sensitivity minDb debounceMs floorV rms nowMs lastHit ↔
        fallbackIsOnset sensitivity minDb debounceMs floorV rms nowMs lastHit) := by
    intro s m δ floorV rms now last hs hf hr
    constructor
    · rintro ⟨hdb, _, hdeb⟩
      exact ⟨hdb, hdeb⟩
    · rintro ⟨hdb, hdeb⟩
      refine ⟨hdb, ?_, hdeb⟩
      have h1 : dbOf rms > dbOf floorV + s * 6 :=
        lt_of_le_of_lt (le_max_left _ _) hdb
      exact db_gap_implies_linear s floorV rms hs hf hr h1
  refine ⟨fun _ _ _ => rfl, key, ?_⟩
  intro st cfg mwf fst data now hsens hmin hdeb halpha hsma hlast hs ha0 ha1 hf
  rw [Fallback.fb_emitsStroke_process_iff]
  by_cases hne : data = []
  · subst hne
    have hrms0 : rmsOf ([] : List ℝ) = 0 := rmsOf_nil
    have hfloor : 0 ≤ cfg.alpha * rmsOf ([] : List ℝ) +
        (1 - cfg.alpha) * fst.floorRef := by
      rw [hrms0]
      have := mul_nonneg (by linarith : (0:ℝ) ≤ 1 - cfg.alpha) hf
      linarith
    have hworklet : StrokeProcessor.process st [] now = (st, []) := by
      unfold StrokeProcessor.process
      simp
    rw [hworklet]
    constructor
    · rintro ⟨m, hm, -⟩
      simp at hm
    · rintro ⟨hdb, -⟩
      unfold fallbackThresholdDb at hdb
      have hdbv : dbOf (rmsOf ([] : List ℝ)) = -180 := by rw [hrms0, dbOf_zero]
      have h180 : -180 ≤ dbOf (cfg.alpha * rmsOf ([] : List ℝ) +
          (1 - cfg.alpha) * fst.floorRef) := dbOf_ge_neg180 hfloor
      have hmax := le_max_left (dbOf (cfg.alpha * rmsOf ([] : List ℝ) +
          (1 - cfg.alpha) * fst.floorRef) + cfg.sensitivity * 6) cfg.minDb
      have h6 : 0 ≤ cfg.sensitivity * 6 := by positivity
      linarith
  · rw [StrokeProcessor.emitsStroke_process_iff st data now hne]
    rw [hsens, hmin, hdeb, halpha, hsma, hlast]
    apply key
    · exact hs
    · have := mul_nonneg ha0 (rmsOf_nonneg data)
      have := mul_nonneg (by linarith : (0:ℝ) ≤ 1 - cfg.alpha) hf
      linarith
    · exact rmsOf_nonneg data

/-- Witness for C1: the classification equivalence instantiated at a
concrete configuration, floor and block metric. -/
theorem c1_witness :
    ((0:ℝ) ≤ 1.5 ∧ (0:ℝ) ≤ 0 ∧ (0:ℝ) ≤ rmsOf [1/2]) ∧
    (workletIsOnset 1.5 (-55) 35 0 (rmsOf [1/2]) 1000 0 ↔
      fallbackIsOnset 1.5 (-55) 35 0 (rmsOf [1/2]) 1000 0) :=
  ⟨⟨by norm_num, le_rfl, rmsOf_nonneg _⟩,
    c1_dual_path_classification_equivalence.2.1 1.5 (-55) 35 0 (rmsOf [1/2]) 1000 0
      (by norm_num) le_rfl (rmsOf_nonneg _)⟩

/-! ### Claim C4: the worklet's onset decision equals the spec's rule -/

/-- Claim C4: for every non-empty block, the worklet posts a stroke exactly
when the spec's §4.3 rule holds: `thresholdDb = max(floorDb + sensitivity*6,
minDb)` and `blockDb > thresholdDb ∧ blockRms > linearRms*sensitivity ∧
nowMs - lastAcceptedOnsetMs > debounceMs`, evaluated on the floor after the
current block's update. -/
theorem c4_worklet_matches_spec_rule (st : StrokeProcessor.State)
    (data : List ℝ) (nowMs : ℝ) (hne : data ≠ []) :
    StrokeProcessor.emitsStroke (StrokeProcessor.process st data nowMs).2 ↔
      specIsOnset (dbOf (rmsOf data)) (rmsOf data)
        (st.alpha * rmsOf data + (1 - st.alpha) * st.energySMA)
        st.sensitivity st.minDb nowMs st.lastHitTime st.debounceMs :=
  StrokeProcessor.emitsStroke_process_iff st data nowMs hne

/-- Witness for C4: the equivalence at a concrete state and block. -/
theorem c4_witness :
    ([(1:ℝ)/2] ≠ []) ∧
    (StrokeProcessor.emitsStroke
        (StrokeProcessor.process ⟨0, 1/20, 3/2, 35, -55, 0, 1440, none, 0⟩
          [1/2] 0).2 ↔
      specIsOnset (dbOf (rmsOf [1/2])) (rmsOf [1/2])
        ((1:ℝ)/20 * rmsOf [1/2] + (1 - 1/20) * 0) (3/2) (-55) 0 0 35) :=
  ⟨by simp,
    c4_worklet_matches_spec_rule ⟨0, 1/20, 3/2, 35, -55, 0, 1440, none, 0⟩
      [1/2] 0 (by simp)⟩

/-! ### Claim C9: empty blocks are skipped; levels stay finite -/

lemma le_peakFold (data : List ℝ) (init : ℝ) : init ≤ peakFold init data := by
  induction data generalizing init with
  | nil => simp [peakFold]
  | cons x xs ih =>
    unfold peakFold at ih ⊢
    rw [List.foldl_cons]
    exact le_trans (le_max_left _ _) (ih _)

lemma peakAbsOf_nonneg (data : List ℝ) : 0 ≤ peakAbsOf data := le_peakFold data 0

lemma process_nil (st : StrokeProcessor.State) (now : ℝ) :
    StrokeProcessor.process st [] now = (st, []) := by
  unfold StrokeProcessor.process
  simp

/-- Claim C9: absent inputs and zero-length blocks are skipped without any
state change or message; and for every block the computed `rms`, `db`,
`peakDb` and `floorDb` are well-defined finite reals: the `1e-9` epsilon
keeps every dB argument strictly positive, so all levels are bounded below
by `-180` dB (and the floor update preserves nonnegativity). -/
theorem c9_empty_blocks_skipped_levels_finite :
    (∀ (st : StrokeProcessor.State) (now : ℝ),
        StrokeProcessor.processRaw st none now = (st, [])) ∧
    (∀ (st : StrokeProcessor.State) (now : ℝ),
        StrokeProcessor.processRaw st (some []) now = (st, [])) ∧
    (∀ (st : StrokeProcessor.State) (chans : List (List ℝ)) (now : ℝ),
        StrokeProcessor.processRaw st (some ([] :: chans)) now = (st, [])) ∧
    (∀ (st : StrokeProcessor.State) (now : ℝ),
        StrokeProcessor.process st [] now = (st, [])) ∧
    (∀ data : List ℝ,
        0 ≤ rmsOf data ∧ 0 < rmsOf data + 1e-9 ∧ -180 ≤ dbOf (rmsOf data) ∧
          0 ≤ peakAbsOf data ∧ -180 ≤ dbOf (peakAbsOf data)) ∧
    (∀ (st : StrokeProcessor.State) (data : List ℝ),
        0 ≤ st.energySMA → 0 ≤ st.alpha → st.alpha ≤ 1 →
        0 ≤ st.alpha * rmsOf data + (1 - st.alpha) * st.energySMA ∧
          -180 ≤ dbOf (st.alpha * rmsOf data + (1 - st.alpha) * st.energySMA)) := by
  refine ⟨fun st now => rfl, fun st now => rfl,
    fun st chans now => process_nil st now, process_nil, ?_, ?_⟩
  · intro data
    have h1 := rmsOf_nonneg data
    have h2 := peakAbsOf_nonneg data
    exact ⟨h1, by linarith, dbOf_ge_neg180 h1, h2, dbOf_ge_neg180 h2⟩
  · intro st data h0 ha0 ha1
    have hfloor : 0 ≤ st.alpha * rmsOf data + (1 - st.alpha) * st.energySMA := by
      have := mul_nonneg ha0 (rmsOf_nonneg data)
      have := mul_nonneg (by linarith : (0:ℝ) ≤ 1 - st.alpha) h0
      linarith
    exact ⟨hfloor, dbOf_ge_neg180 hfloor⟩

/-- Witness for C9: the finiteness part instantiated at a concrete block and
state, the hypotheses discharged numerically. -/
theorem c9_witness :
    ((0:ℝ) ≤ 0 ∧ (0:ℝ) ≤ 1/20 ∧ (1/20:ℝ) ≤ 1) ∧
    (0 ≤ (1:ℝ)/20 * rmsOf [1/2] + (1 - 1/20) * 0 ∧
      -180 ≤ dbOf ((1:ℝ)/20 * rmsOf [1/2] + (1 - 1/20) * 0)) :=
  ⟨⟨le_rfl, by norm_num, by norm_num⟩,
    c9_empty_blocks_skipped_levels_finite.2.2.2.2.2
      ⟨0, 1/20, 3/2, 35, -55, 0, 1440, none, 0⟩ [1/2]
      le_rfl (by norm_num) (by norm_num)⟩

/-! ### Claim C10: the measurement-window bookkeeping invariant -/

namespace StrokeProcessor

/-- The `_accumulateMeasure` step preserves the window invariant on a still-open
window, keeps `remaining` positive while open, and, when it finalizes,
divides the accumulated sum of squares by exactly the configured window
size (which is the `Math.max(1, count)` divisor, since `count` has reached
`measureWindowFrames ≥ 1`). -/
lemma accumulate_pending_inv (st : State) (data : List ℝ) (mwf : ℕ)
    (hm : 1 ≤ mwf)
    (hp : ∀ p, st.pendingMeasure = some p → PendingInv mwf p ∧ 0 < p.remaining) :
    (∀ q, (accumulateMeasure st data).1.pendingMeasure = some q →
        PendingInv mwf q ∧ 0 < q.remaining) ∧
    (∀ seq r d pk, Msg.strokeMeasure seq r d pk ∈ (accumulateMeasure st data).2 →
        ∃ S : ℝ, r = Real.sqrt (S / (mwf : ℝ))) := by
  unfold accumulateMeasure
  rcases h : st.pendingMeasure with _ | p
  · constructor
    · intro q hq
      exact hp q (h ▸ hq)
    · intro seq r d pk hmem
      simp at hmem
  · obtain ⟨hinv, hpos⟩ := hp p h
    unfold PendingInv at hinv
    dsimp only
    split
    case isTrue hz =>
      constructor
      · intro q hq
        simp at hq
      · intro seq r d pk hmem
        rw [List.mem_singleton] at hmem
        injection hmem with h1 h2 h3 h4
        refine ⟨p.sumSquares + frameEnergy (data.take (min p.remaining data.length)),
          ?_⟩
        have hmax : max 1 (p.count + min p.remaining data.length) = mwf := by omega
        rw [h2, hmax]
    case isFalse hz =>
      constructor
      · intro q hq
        simp at hq
        constructor
        · unfold PendingInv
          rw [← hq]
          simp
          omega
        · rw [← hq]
          simp
          omega
      · intro seq r d pk hmem
        simp at hmem

end StrokeProcessor

/-- Claim C10: the invariant `count + remaining = measureWindowFrames` holds
when a window opens and is preserved by every accumulation step; a window
still open after a block has `remaining > 0`; and every finalized
`stroke-measure` divides its sum of squares by exactly
`measureWindowFrames ≥ 1` (the `Math.max(1, count)` divisor equals the full
window size at finalization). -/
theorem c10_window_accounting (st : StrokeProcessor.State) (data : List ℝ)
    (now : ℝ) (hm : 1 ≤ st.measureWindowFrames)
    (hp : ∀ p, st.pendingMeasure = some p →
        StrokeProcessor.PendingInv st.measureWindowFrames p ∧ 0 < p.remaining) :
    (∀ q, (StrokeProcessor.process st data now).1.pendingMeasure = some q →
        StrokeProcessor.PendingInv st.measureWindowFrames q ∧ 0 < q.remaining) ∧
    (∀ seq r d pk,
        StrokeProcessor.Msg.strokeMeasure seq r d pk ∈
          (StrokeProcessor.process st data now).2 →
        ∃ S : ℝ, r = Real.sqrt (S / (st.measureWindowFrames : ℝ))) := by
  unfold StrokeProcessor.process
  by_cases hne : data.length = 0
  · rw [if_pos hne]
    refine ⟨hp, ?_⟩
    intro seq r d pk hmem
    simp at hmem
  · rw [if_neg hne]
    dsimp only
    by_cases h : workletIsOnset st.sensitivity st.minDb st.debounceMs
        (st.alpha * rmsOf data + (1 - st.alpha) * st.energySMA) (rmsOf data)
        now st.lastHitTime
    · rw [if_pos h]
      have key := StrokeProcessor.accumulate_pending_inv
        { st with
          energySMA := st.alpha * rmsOf data + (1 - st.alpha) * st.energySMA,
          lastHitTime := now, hitSeq := st.hitSeq + 1,
          pendingMeasure := some ⟨st.hitSeq + 1, st.measureWindowFrames, 0, 0, 0⟩ }
        data st.measureWindowFrames hm
        (by
          intro p hp2
          simp at hp2
          rw [← hp2]
          exact ⟨by unfold StrokeProcessor.PendingInv; simp, by simpa using hm⟩)
      refine ⟨key.1, ?_⟩
      intro seq r d pk hmem
      rcases List.mem_cons.mp hmem with hhd | htl
      · cases hhd
      · exact key.2 seq r d pk htl
    · rw [if_neg h]
      have key := StrokeProcessor.accumulate_pending_inv
        { st with
          energySMA := st.alpha * rmsOf data + (1 - st.alpha) * st.energySMA }
        data st.measureWindowFrames hm (by intro p hp2; exact hp p hp2)
      exact ⟨key.1, key.2⟩

/-- Witness for C10: the accounting at a concrete state with an open window
of 1440 frames, 440 frames already accumulated. -/
theorem c10_witness :
    (1 ≤ (⟨0, 1/20, 3/2, 35, -55, 0, 1440,
        some ⟨1, 1000, 0, 0, 440⟩, 1⟩ : StrokeProcessor.State).measureWindowFrames) ∧
    ((∀ q, (StrokeProcessor.process
          ⟨0, 1/20, 3/2, 35, -55, 0, 1440, some ⟨1, 1000, 0, 0, 440⟩, 1⟩
          (List.replicate 128 (1/100)) 1000).1.pendingMeasure = some q →
        StrokeProcessor.PendingInv 1440 q ∧ 0 < q.remaining) ∧
      (∀ seq r d pk,
          StrokeProcessor.Msg.strokeMeasure seq r d pk ∈
            (StrokeProcessor.process
              ⟨0, 1/20, 3/2, 35, -55, 0, 1440, some ⟨1, 1000, 0, 0, 440⟩, 1⟩
              (List.replicate 128 (1/100)) 1000).2 →
          ∃ S : ℝ, r = Real.sqrt (S / (1440 : ℝ)))) := by
  have hm : 1 ≤ (1440 : ℕ) := by norm_num
  refine ⟨hm, ?_⟩
  have := c10_window_accounting
    ⟨0, 1/20, 3/2, 35, -55, 0, 1440, some ⟨1, 1000, 0, 0, 440⟩, 1⟩
    (List.replicate 128 (1/100)) 1000 hm
    (by
      intro p hp2
      simp at hp2
      rw [← hp2]
      exact ⟨by unfold StrokeProcessor.PendingInv; simp, by norm_num⟩)
  exact this

/-! ### Numeric instances of the classifier conditions -/

lemma rpow_neg_three : (10:ℝ) ^ (-(3:ℝ)) = 1 / 1000 := by
  rw [show (-(3:ℝ)) = -((3:ℕ):ℝ) by norm_num, Real.rpow_neg (by norm_num),
    Real.rpow_natCast]
  norm_num

lemma rmsOf_replicate (n : ℕ) (a : ℝ) (hn : n ≠ 0) :
    rmsOf (List.replicate n a) = |a| := by
  unfold rmsOf frameEnergy
  rw [List.map_replicate, List.sum_replicate, List.length_replicate, nsmul_eq_mul,
    mul_div_cancel_left₀ _ (Nat.cast_ne_zero.mpr hn : (n:ℝ) ≠ 0)]
  exact Real.sqrt_mul_self_eq_abs a

lemma dbOf_gt_add_of_c_le_ten {x y c : ℝ} (hx : 0 ≤ x) (hy : 0 ≤ y)
    (hc : c ≤ 10) (h : (y + 1e-9) * 3.2 ≤ x + 1e-9) : dbOf x > dbOf y + c := by
  rw [dbOf_gt_iff x y c hx hy]
  have h1 : (10:ℝ) ^ (c / 20) ≤ (10:ℝ) ^ ((1:ℝ) / 2) := rpow_ten_mono (by linarith)
  have h2 : (10:ℝ) ^ (c / 20) < 3.2 := lt_of_le_of_lt h1 rpow_half_lt
  have hy' : (0:ℝ) < y + 1e-9 := by linarith
  calc (y + 1e-9) * (10:ℝ) ^ (c / 20) < (y + 1e-9) * 3.2 :=
        mul_lt_mul_of_pos_left h2 hy'
    _ ≤ x + 1e-9 := h

lemma dbOf_le_add_of_c_ge_twenty {x y c : ℝ} (hx : 0 ≤ x) (hy : 0 ≤ y)
    (hc : 20 ≤ c) (h : x + 1e-9 ≤ (y + 1e-9) * 10) : dbOf x ≤ dbOf y + c := by
  rw [dbOf_le_iff x y c hx hy]
  have h1 : (10:ℝ) ^ (1:ℝ) ≤ (10:ℝ) ^ (c / 20) := rpow_ten_mono (by linarith)
  rw [rpow_ten_one] at h1
  calc x + 1e-9 ≤ (y + 1e-9) * 10 := h
    _ ≤ (y + 1e-9) * (10:ℝ) ^ (c / 20) :=
        mul_le_mul_of_nonneg_left h1 (by linarith)

lemma dbOf_gt_min {m x : ℝ} (hx : 0 ≤ x) (hm : m ≤ -40)
    (h : (1:ℝ) / 100 < x + 1e-9) : dbOf x > m := by
  rw [dbOf_gt_const_iff x m hx]
  have h1 : (10:ℝ) ^ (m / 20) ≤ (10:ℝ) ^ (-(2:ℝ)) := rpow_ten_mono (by linarith)
  rw [rpow_neg_two] at h1
  linarith

/-- At the default fallback configuration (sensitivity 1.3), a 0.01-RMS
block over a 0.001 floor is accepted. -/
lemma fallback_onset_core :
    fallbackIsOnset (13/10) (-60) 15 (1/1000) (1/100) 1000 0 := by
  unfold fallbackIsOnset fallbackThresholdDb
  constructor
  · rw [gt_iff_lt, max_lt_iff]
    constructor
    · have := dbOf_gt_add_of_c_le_ten (x := 1/100) (y := 1/1000) (c := 13/10 * 6)
        (by norm_num) (by norm_num) (by norm_num) (by norm_num)
      linarith
    · have := dbOf_gt_min (m := -60) (x := 1/100) (by norm_num) (by norm_num)
        (by norm_num)
      linarith
  · norm_num

/-- At sensitivity 4, the same block over the same floor is rejected. -/
lemma fallback_reject_core :
    ¬ fallbackIsOnset 4 (-60) 15 (1/1000) (1/100) 1000 0 := by
  unfold fallbackIsOnset fallbackThresholdDb
  rintro ⟨hdb, -⟩
  have hle : dbOf (1/100 : ℝ) ≤ dbOf (1/1000 : ℝ) + 4 * 6 :=
    dbOf_le_add_of_c_ge_twenty (by norm_num) (by norm_num) (by norm_num) (by norm_num)
  have hmax := le_max_left (dbOf (1/1000 : ℝ) + 4 * 6) (-60 : ℝ)
  rw [gt_iff_lt] at hdb
  linarith

/-- At the worklet defaults (sensitivity 1.5, debounce 35 ms, minDb -55), a
0.01-RMS block over a 0.0005 floor is accepted. -/
lemma worklet_onset_core :
    workletIsOnset (3/2) (-55) 35 (1/2000) (1/100) 1000 0 := by
  unfold workletIsOnset dynamicThresholdDb
  refine ⟨?_, by norm_num, by norm_num⟩
  rw [gt_iff_lt, max_lt_iff]
  constructor
  · have := dbOf_gt_add_of_c_le_ten (x := 1/100) (y := 1/2000) (c := 3/2 * 6)
      (by norm_num) (by norm_num) (by norm_num) (by norm_num)
    linarith
  · have := dbOf_gt_min (m := -55) (x := 1/100) (by norm_num) (by norm_num)
      (by norm_num)
    linarith

/-! ### Claim C2: updateConfig and the next processed block -/

/-- Claim C2 (code bug evidence): on the fallback path, `updateConfig` has no
effect on classification: the session's next block is processed with the
start-time closure `merged`, not the updated configuration; and at the
session's default start configuration there is a block that the code
accepts (with the stale sensitivity 1.3) but that sensitivity 4 — which the
claim requires to be in force — would reject. -/
theorem c2_fallback_uses_stale_config :
    (∀ (s : Fallback.Session) (next : Fallback.ConfigPatch) (st : Fallback.State)
        (input : List ℝ) (now : ℝ),
        Fallback.sessionProcess (Fallback.updateConfig s next) st input now =
          Fallback.sessionProcess s st input now) ∧
    StrokeProcessor.emitsStroke
      (Fallback.sessionProcess
        (Fallback.updateConfig (Fallback.startSession Fallback.defaultConfig {})
          { sensitivity := some 4 })
        ⟨0, 0, 0, none⟩ (List.replicate 1024 (1/100)) 1000).2 ∧
    ¬ StrokeProcessor.emitsStroke
      (Fallback.process
        (Fallback.mergeConfig Fallback.defaultConfig { sensitivity := some 4 })
        (Fallback.measureWindowFrames Fallback.defaultConfig)
        ⟨0, 0, 0, none⟩ (List.replicate 1024 (1/100)) 1000).2 := by
  have hrms : rmsOf (List.replicate 1024 ((1:ℝ)/100)) = 1/100 := by
    rw [rmsOf_replicate 1024 (1/100) (by norm_num)]
    rw [abs_of_nonneg (by norm_num)]
  refine ⟨fun s next st input now => rfl, ?_, ?_⟩
  · rw [Fallback.sessionProcess, Fallback.fb_emitsStroke_process_iff]
    have h := fallback_onset_core
    simp only [Fallback.updateConfig, Fallback.startSession, Fallback.mergeConfig,
      Fallback.defaultConfig, Option.getD_none, Option.getD_some]
    rw [hrms]
    rw [show (0.1:ℝ) * (1/100) + (1 - 0.1) * 0 = 1/1000 by norm_num,
      show (1.3:ℝ) = 13/10 by norm_num, show (-60:ℝ) = -60 by norm_num]
    exact h
  · rw [Fallback.fb_emitsStroke_process_iff]
    have h := fallback_reject_core
    simp only [Fallback.mergeConfig, Fallback.defaultConfig, Option.getD_none,
      Option.getD_some]
    rw [hrms]
    rw [show (0.1:ℝ) * (1/100) + (1 - 0.1) * 0 = 1/1000 by norm_num]
    exact h

/-! ### Claim C3: a new onset replaces a still-open measurement window -/

namespace StrokeProcessor

/-- When a non-empty block is accepted, `process` unconditionally installs a
fresh pending window for the new sequence number before accumulating. -/
lemma process_accept (st : State) (data : List ℝ) (now : ℝ)
    (hne : ¬ data.length = 0)
    (hacc : workletIsOnset st.sensitivity st.minDb st.debounceMs
      (st.alpha * rmsOf data + (1 - st.alpha) * st.energySMA) (rmsOf data) now
      st.lastHitTime) :
    process st data now =
      ((accumulateMeasure
          { st with
            energySMA := st.alpha * rmsOf data + (1 - st.alpha) * st.energySMA,
            lastHitTime := now, hitSeq := st.hitSeq + 1,
            pendingMeasure := some ⟨st.hitSeq + 1, st.measureWindowFrames, 0, 0, 0⟩ }
          data).1,
        Msg.stroke (st.hitSeq + 1) (dbOf (rmsOf data)) (dbOf (peakAbsOf data))
            (rmsOf data) now
            (dbOf (st.alpha * rmsOf data + (1 - st.alpha) * st.energySMA))
            (dynamicThresholdDb
              (dbOf (st.alpha * rmsOf data + (1 - st.alpha) * st.energySMA))
              st.sensitivity st.minDb) ::
          (accumulateMeasure
            { st with
              energySMA := st.alpha * rmsOf data + (1 - st.alpha) * st.energySMA,
              lastHitTime := now, hitSeq := st.hitSeq + 1,
              pendingMeasure :=
                some ⟨st.hitSeq + 1, st.measureWindowFrames, 0, 0, 0⟩ }
            data).2) := by
  unfold process
  rw [if_neg hne]
  dsimp only
  rw [if_pos hacc]

/-- Any window or finalized measurement surviving `_accumulateMeasure` keeps
the sequence number of the window that was pending on entry. -/
lemma accumulate_seq (st : State) (data : List ℝ) :
    (∀ q, (accumulateMeasure st data).1.pendingMeasure = some q →
        ∃ p, st.pendingMeasure = some p ∧ q.seq = p.seq) ∧
    (∀ seq r d pk, Msg.strokeMeasure seq r d pk ∈ (accumulateMeasure st data).2 →
        ∃ p, st.pendingMeasure = some p ∧ seq = p.seq) := by
  unfold accumulateMeasure
  rcases h : st.pendingMeasure with _ | p
  · constructor
    · intro q hq
      simp [h] at hq
    · intro seq r d pk hmem
      simp [h] at hmem
  · dsimp only
    split
    · constructor
      · intro q hq
        simp at hq
      · intro seq r d pk hmem
        rw [List.mem_singleton] at hmem
        injection hmem with h1 _ _ _
        exact ⟨p, rfl, h1⟩
    · constructor
      · intro q hq
        dsimp only at hq
        injection hq with hq'
        exact ⟨p, rfl, by rw [← hq']⟩
      · intro seq r d pk hmem
        simp at hmem

end StrokeProcessor

/-- The concrete onset condition used by the C3 scenario: worklet defaults,
silent prior floor, a 128-sample block of constant amplitude 0.01. -/
lemma worklet_onset_replicate :
    workletIsOnset (3/2) (-55) 35
      ((1:ℝ)/20 * rmsOf (List.replicate 128 ((1:ℝ)/100)) + (1 - 1/20) * 0)
      (rmsOf (List.replicate 128 ((1:ℝ)/100))) 1000 0 := by
  have hrms : rmsOf (List.replicate 128 ((1:ℝ)/100)) = 1/100 := by
    rw [rmsOf_replicate 128 (1/100) (by norm_num)]
    rw [abs_of_nonneg (by norm_num)]
  rw [hrms]
  rw [show (1:ℝ)/20 * (1/100) + (1 - 1/20) * 0 = 1/2000 by norm_num]
  exact worklet_onset_core

/-- Claim C3 (counterexample): a run state with a still-accumulating window
(sequence 1, 1000 frames remaining) that accepts a new onset: the step
opens a *new* window for sequence 2 (1440-frame countdown, 128 frames
consumed by the triggering block), instead of keeping the old window
counting down, contradicting the claimed first-onset-wins behaviour. -/
theorem c3_counterexample :
    StrokeProcessor.emitsStroke
      (StrokeProcessor.process
        ⟨0, 1/20, 3/2, 35, -55, 0, 1440, some ⟨1, 1000, 0, 0, 440⟩, 1⟩
        (List.replicate 128 (1/100)) 1000).2 ∧
    (∃ q, (StrokeProcessor.process
        ⟨0, 1/20, 3/2, 35, -55, 0, 1440, some ⟨1, 1000, 0, 0, 440⟩, 1⟩
        (List.replicate 128 (1/100)) 1000).1.pendingMeasure = some q ∧
      q.seq = 2 ∧ q.remaining = 1312) := by
  have hacc := worklet_onset_replicate
  constructor
  · rw [StrokeProcessor.emitsStroke_process_iff _ _ _ (by simp)]
    exact hacc
  · rw [StrokeProcessor.process_accept
      ⟨0, 1/20, 3/2, 35, -55, 0, 1440, some ⟨1, 1000, 0, 0, 440⟩, 1⟩
      (List.replicate 128 (1/100)) 1000 (by simp) hacc]
    unfold StrokeProcessor.accumulateMeasure
    dsimp only
    rw [if_neg (by simp)]
    refine ⟨_, rfl, rfl, ?_⟩
    simp

/-- Claim C3 (amended): at most one pending measurement exists at a time (the
processor state holds a single optional window), but when an onset is
accepted while a prior window is still accumulating, the *new* onset's
window replaces it: every window open after the step, and every measurement
finalized during it, carries the new sequence number `hitSeq + 1` — the old
window's refined measurement is silently dropped (last-onset-wins). -/
theorem c3_new_onset_replaces_window (st : StrokeProcessor.State)
    (data : List ℝ) (now : ℝ) (hne : ¬ data.length = 0)
    (hacc : workletIsOnset st.sensitivity st.minDb st.debounceMs
      (st.alpha * rmsOf data + (1 - st.alpha) * st.energySMA) (rmsOf data) now
      st.lastHitTime) :
    (∀ q, (StrokeProcessor.process st data now).1.pendingMeasure = some q →
        q.seq = st.hitSeq + 1) ∧
    (∀ seq r d pk, StrokeProcessor.Msg.strokeMeasure seq r d pk ∈
        (StrokeProcessor.process st data now).2 → seq = st.hitSeq + 1) := by
  rw [StrokeProcessor.process_accept st data now hne hacc]
  have key := StrokeProcessor.accumulate_seq
    { st with
      energySMA := st.alpha * rmsOf data + (1 - st.alpha) * st.energySMA,
      lastHitTime := now, hitSeq := st.hitSeq + 1,
      pendingMeasure := some ⟨st.hitSeq + 1, st.measureWindowFrames, 0, 0, 0⟩ }
    data
  constructor
  · intro q hq
    obtain ⟨p, hp, hseq⟩ := key.1 q hq
    have hp2 : (⟨st.hitSeq + 1, st.measureWindowFrames, 0, 0, 0⟩ :
        StrokeProcessor.Pending) = p := by
      injection hp
    rw [hseq, ← hp2]
  · intro seq r d pk hmem
    rcases List.mem_cons.mp hmem with hhd | htl
    · simp at hhd
    · obtain ⟨p, hp, hseq⟩ := key.2 seq r d pk htl
      have hp2 : (⟨st.hitSeq + 1, st.measureWindowFrames, 0, 0, 0⟩ :
          StrokeProcessor.Pending) = p := by
        injection hp
      rw [hseq, ← hp2]

/-- Witness for the amended C3: the replacement behaviour instantiated at
the counterexample's concrete state and block. -/
theorem c3_witness :
    (¬ (List.replicate 128 ((1:ℝ)/100)).length = 0) ∧
    ((∀ q, (StrokeProcessor.process
          ⟨0, 1/20, 3/2, 35, -55, 0, 1440, some ⟨1, 1000, 0, 0, 440⟩, 1⟩
          (List.replicate 128 (1/100)) 1000).1.pendingMeasure = some q →
        q.seq = 1 + 1) ∧
      (∀ seq r d pk, StrokeProcessor.Msg.strokeMeasure seq r d pk ∈
          (StrokeProcessor.process
            ⟨0, 1/20, 3/2, 35, -55, 0, 1440, some ⟨1, 1000, 0, 0, 440⟩, 1⟩
            (List.replicate 128 (1/100)) 1000).2 → seq = 1 + 1)) :=
  ⟨by simp,
    c3_new_onset_replaces_window
      ⟨0, 1/20, 3/2, 35, -55, 0, 1440, some ⟨1, 1000, 0, 0, 440⟩, 1⟩
      (List.replicate 128 (1/100)) 1000 (by simp) worklet_onset_replicate⟩

/-! ### Claim C6: the debounce invariant over a whole run -/

namespace StrokeProcessor

/-- The `_accumulateMeasure` step only ever touches `pendingMeasure`. -/
lemma accumulate_fields (st : State) (data : List ℝ) :
    (accumulateMeasure st data).1.energySMA = st.energySMA ∧
    (accumulateMeasure st data).1.alpha = st.alpha ∧
    (accumulateMeasure st data).1.sensitivity = st.sensitivity ∧
    (accumulateMeasure st data).1.debounceMs = st.debounceMs ∧
    (accumulateMeasure st data).1.minDb = st.minDb ∧
    (accumulateMeasure st data).1.lastHitTime = st.lastHitTime ∧
    (accumulateMeasure st data).1.measureWindowFrames = st.measureWindowFrames ∧
    (accumulateMeasure st data).1.hitSeq = st.hitSeq := by
  unfold accumulateMeasure
  rcases h : st.pendingMeasure with _ | p
  · exact ⟨rfl, rfl, rfl, rfl, rfl, rfl, rfl, rfl⟩
  · dsimp only
    split
    · exact ⟨rfl, rfl, rfl, rfl, rfl, rfl, rfl, rfl⟩
    · exact ⟨rfl, rfl, rfl, rfl, rfl, rfl, rfl, rfl⟩

/-- The `_accumulateMeasure` step posts no stroke messages, so no stroke times. -/
lemma strokeTimes_accumulate (st : State) (data : List ℝ) :
    strokeTimes (accumulateMeasure st data).2 = [] := by
  unfold accumulateMeasure
  rcases h : st.pendingMeasure with _ | p
  · rfl
  · dsimp only
    split
    · rfl
    · rfl

/-- Case analysis of one `process` step: the configuration fields never
change; an empty block is a no-op; otherwise the floor updates, and
`lastHitTime`, `hitSeq` and the posted stroke time are determined by the
onset decision. -/
lemma process_char (st : State) (data : List ℝ) (now : ℝ) :
    ((process st data now).1.alpha = st.alpha ∧
      (process st data now).1.sensitivity = st.sensitivity ∧
      (process st data now).1.debounceMs = st.debounceMs ∧
      (process st data now).1.minDb = st.minDb ∧
      (process st data now).1.measureWindowFrames = st.measureWindowFrames) ∧
    ((data.length = 0 ∧ process st data now = (st, [])) ∨
      (¬ data.length = 0 ∧
        (process st data now).1.energySMA =
          st.alpha * rmsOf data + (1 - st.alpha) * st.energySMA ∧
        ((workletIsOnset st.sensitivity st.minDb st.debounceMs
            (st.alpha * rmsOf data + (1 - st.alpha) * st.energySMA) (rmsOf data)
            now st.lastHitTime ∧
          (process st data now).1.lastHitTime = now ∧
          (process st data now).1.hitSeq = st.hitSeq + 1 ∧
          strokeTimes (process st data now).2 = [now]) ∨
         (¬ workletIsOnset st.sensitivity st.minDb st.debounceMs
            (st.alpha * rmsOf data + (1 - st.alpha) * st.energySMA) (rmsOf data)
            now st.lastHitTime ∧
          (process st data now).1.lastHitTime = st.lastHitTime ∧
          (process st data now).1.hitSeq = st.hitSeq ∧
          strokeTimes (process st data now).2 = [])))) := by
  by_cases hne : data.length = 0
  · unfold process
    rw [if_pos hne]
    exact ⟨⟨rfl, rfl, rfl, rfl, rfl⟩, Or.inl ⟨hne, rfl⟩⟩
  · by_cases h : workletIsOnset st.sensitivity st.minDb st.debounceMs
        (st.alpha * rmsOf data + (1 - st.alpha) * st.energySMA) (rmsOf data)
        now st.lastHitTime
    · rw [process_accept st data now hne h]
      have hf := accumulate_fields
        { st with
          energySMA := st.alpha * rmsOf data + (1 - st.alpha) * st.energySMA,
          lastHitTime := now, hitSeq := st.hitSeq + 1,
          pendingMeasure := some ⟨st.hitSeq + 1, st.measureWindowFrames, 0, 0, 0⟩ }
        data
      refine ⟨⟨hf.2.1, hf.2.2.1, hf.2.2.2.1, hf.2.2.2.2.1, hf.2.2.2.2.2.2.1⟩,
        Or.inr ⟨hne, hf.1, Or.inl ⟨h, hf.2.2.2.2.2.1, hf.2.2.2.2.2.2.2, ?_⟩⟩⟩
      have hacc2 := strokeTimes_accumulate
        { st with
          energySMA := st.alpha * rmsOf data + (1 - st.alpha) * st.energySMA,
          lastHitTime := now, hitSeq := st.hitSeq + 1,
          pendingMeasure := some ⟨st.hitSeq + 1, st.measureWindowFrames, 0, 0, 0⟩ }
        data
      unfold strokeTimes at hacc2 ⊢
      simp [List.filterMap_cons, hacc2]
    · have heq : process st data now =
          ((accumulateMeasure
            { st with
              energySMA := st.alpha * rmsOf data + (1 - st.alpha) * st.energySMA }
            data).1,
           (accumulateMeasure
            { st with
              energySMA := st.alpha * rmsOf data + (1 - st.alpha) * st.energySMA }
            data).2) := by
        unfold process
        rw [if_neg hne]
        dsimp only
        rw [if_neg h]
      rw [heq]
      have hf := accumulate_fields
        { st with
          energySMA := st.alpha * rmsOf data + (1 - st.alpha) * st.energySMA }
        data
      exact ⟨⟨hf.2.1, hf.2.2.1, hf.2.2.2.1, hf.2.2.2.2.1, hf.2.2.2.2.2.2.1⟩,
        Or.inr ⟨hne, hf.1, Or.inr ⟨h, hf.2.2.2.2.2.1, hf.2.2.2.2.2.2.2,
          strokeTimes_accumulate _ _⟩⟩⟩

/-- Over any run, consecutive posted stroke timestamps are separated by more
than `debounceMs`, and the first one exceeds the initial `lastHitTime` by
more than `debounceMs`. -/
lemma run_strokeTimes_chain :
    ∀ (blocks : List (List ℝ × ℝ)) (st : State),
      List.Chain' (fun a b => a + st.debounceMs < b)
        (strokeTimes (run st blocks).2) ∧
      (∀ t0 ∈ (strokeTimes (run st blocks).2).head?,
        st.lastHitTime + st.debounceMs < t0) := by
  intro blocks
  induction blocks with
  | nil =>
    intro st
    exact ⟨List.chain'_nil, by intro t0 h; simp [run, strokeTimes] at h⟩
  | cons hd rest ih =>
    intro st
    obtain ⟨data, t⟩ := hd
    have hrun : run st ((data, t) :: rest) =
        ((run (process st data t).1 rest).1,
          (process st data t).2 ++ (run (process st data t).1 rest).2) := rfl
    rw [hrun]
    have hsplit : strokeTimes ((process st data t).2 ++
        (run (process st data t).1 rest).2) =
        strokeTimes (process st data t).2 ++
          strokeTimes (run (process st data t).1 rest).2 := by
      unfold strokeTimes
      rw [List.filterMap_append]
    rw [hsplit]
    obtain ⟨⟨-, -, hdeb, -, -⟩, hcase⟩ := process_char st data t
    have ihs := ih (process st data t).1
    rw [hdeb] at ihs
    rcases hcase with ⟨-, hskip⟩ | ⟨-, -, honset | hnoset⟩
    · have h1 : (process st data t).1 = st := by rw [hskip]
      have h2 : strokeTimes (process st data t).2 = [] := by rw [hskip]; rfl
      rw [h2, List.nil_append, h1]
      rw [h1] at ihs
      exact ihs
    · obtain ⟨hcond, hlast, -, htimes⟩ := honset
      rw [htimes]
      have hhead : ∀ t0 ∈ (strokeTimes (run (process st data t).1 rest).2).head?,
          t + st.debounceMs < t0 := by
        intro t0 h0
        have := ihs.2 t0 h0
        rw [hlast] at this
        exact this
      constructor
      · rw [List.cons_append, List.nil_append, List.chain'_cons']
        exact ⟨hhead, ihs.1⟩
      · intro t0 h0
        rw [List.cons_append, List.nil_append] at h0
        simp at h0
        rw [← h0]
        have := hcond.2.2
        linarith
    · obtain ⟨-, hlast, -, htimes⟩ := hnoset
      rw [htimes, List.nil_append]
      refine ⟨ihs.1, ?_⟩
      intro t0 h0
      have := ihs.2 t0 h0
      rw [hlast] at this
      exact this

end StrokeProcessor

/-- Claim C6: over any detection run (in particular one whose blocks all
exceed the threshold continuously), no two posted stroke events are closer
together on the processing clock than `debounceMs`: all pairs of stroke
timestamps, in emission order, are separated by more than `debounceMs`.
(The model's separation is exact; the "one block of slack" caveat concerns
real block granularity only.) -/
theorem c6_debounce_invariant (st : StrokeProcessor.State)
    (blocks : List (List ℝ × ℝ)) (hdeb : 0 ≤ st.debounceMs) :
    List.Pairwise (fun a b => a + st.debounceMs < b)
      (StrokeProcessor.strokeTimes (StrokeProcessor.run st blocks).2) := by
  have hchain := (StrokeProcessor.run_strokeTimes_chain blocks st).1
  haveI : IsTrans ℝ (fun a b => a + st.debounceMs < b) :=
    ⟨fun a b c hab hbc => by
      have hab' : a + st.debounceMs < b := hab
      have hbc' : b + st.debounceMs < c := hbc
      linarith⟩
  exact List.chain'_iff_pairwise.mp hchain

/-- Witness for C6: the invariant at a concrete run. -/
theorem c6_witness :
    (0:ℝ) ≤ 35 ∧
    List.Pairwise
      (fun a b => a + (⟨0, 1/20, 3/2, 35, -55, 0, 1440, none, 0⟩ :
          StrokeProcessor.State).debounceMs < b)
      (StrokeProcessor.strokeTimes
        (StrokeProcessor.run ⟨0, 1/20, 3/2, 35, -55, 0, 1440, none, 0⟩
          [(List.replicate 128 (1/100), 1000)]).2) :=
  ⟨by norm_num,
    c6_debounce_invariant ⟨0, 1/20, 3/2, 35, -55, 0, 1440, none, 0⟩
      [(List.replicate 128 (1/100), 1000)] (by norm_num)⟩

/-! ### Claim C5: threshold monotonicity in the sensitivity -/

namespace StrokeProcessor

/-- One-step simulation between two runs differing only in sensitivity
`s1 ≤ s2`: the shared floor state stays equal, and the stricter run's
onset count never overtakes the laxer run's (with the laxer run's last
accepted time never later than the stricter run's when counts are tied). -/
lemma step_sensitivity (st1 st2 : State) (data : List ℝ) (t : ℝ)
    (ha : st2.alpha = st1.alpha) (hd : st2.debounceMs = st1.debounceMs)
    (hm : st2.minDb = st1.minDb) (he : st2.energySMA = st1.energySMA)
    (hs : st1.sensitivity ≤ st2.sensitivity) (hs0 : 0 ≤ st1.sensitivity)
    (he0 : 0 ≤ st1.energySMA) (ha0 : 0 ≤ st1.alpha) (ha1 : st1.alpha ≤ 1)
    (hlt1 : st1.lastHitTime ≤ t) (hlt2 : st2.lastHitTime ≤ t)
    (hcnt : st2.hitSeq < st1.hitSeq ∨
      (st2.hitSeq = st1.hitSeq ∧ st1.lastHitTime ≤ st2.lastHitTime)) :
    (process st2 data t).1.alpha = (process st1 data t).1.alpha ∧
    (process st2 data t).1.debounceMs = (process st1 data t).1.debounceMs ∧
    (process st2 data t).1.minDb = (process st1 data t).1.minDb ∧
    (process st2 data t).1.energySMA = (process st1 data t).1.energySMA ∧
    (process st1 data t).1.sensitivity = st1.sensitivity ∧
    (process st2 data t).1.sensitivity = st2.sensitivity ∧
    (process st1 data t).1.alpha = st1.alpha ∧
    0 ≤ (process st1 data t).1.energySMA ∧
    ((process st1 data t).1.lastHitTime = st1.lastHitTime ∨
      (process st1 data t).1.lastHitTime = t) ∧
    ((process st2 data t).1.lastHitTime = st2.lastHitTime ∨
      (process st2 data t).1.lastHitTime = t) ∧
    ((process st2 data t).1.hitSeq < (process st1 data t).1.hitSeq ∨
      ((process st2 data t).1.hitSeq = (process st1 data t).1.hitSeq ∧
        (process st1 data t).1.lastHitTime ≤ (process st2 data t).1.lastHitTime)) := by
  obtain ⟨⟨ha1c, hs1c, hd1c, hm1c, -⟩, hc1⟩ := process_char st1 data t
  obtain ⟨⟨ha2c, hs2c, hd2c, hm2c, -⟩, hc2⟩ := process_char st2 data t
  rcases hc1 with ⟨hz, hsk1⟩ | ⟨hnz, hE1, hbr1⟩
  · rcases hc2 with ⟨-, hsk2⟩ | ⟨hnz2, -, -⟩
    · rw [hsk1, hsk2]
      exact ⟨ha, hd, hm, he, rfl, rfl, rfl, he0, Or.inl rfl, Or.inl rfl, hcnt⟩
    · exact absurd hz hnz2
  · rcases hc2 with ⟨hz2, -⟩ | ⟨-, hE2, hbr2⟩
    · exact absurd hz2 hnz
    have hrms0 : 0 ≤ rmsOf data := rmsOf_nonneg data
    have hEeq : st2.alpha * rmsOf data + (1 - st2.alpha) * st2.energySMA =
        st1.alpha * rmsOf data + (1 - st1.alpha) * st1.energySMA := by
      rw [ha, he]
    have hE0 : 0 ≤ st1.alpha * rmsOf data + (1 - st1.alpha) * st1.energySMA := by
      have h1 := mul_nonneg ha0 hrms0
      have h2 := mul_nonneg (by linarith : (0:ℝ) ≤ 1 - st1.alpha) he0
      linarith
    rw [hEeq, hd, hm] at hbr2
    have hOimp : workletIsOnset st2.sensitivity st1.minDb st1.debounceMs
        (st1.alpha * rmsOf data + (1 - st1.alpha) * st1.energySMA) (rmsOf data)
        t st2.lastHitTime →
        st1.lastHitTime ≤ st2.lastHitTime →
        workletIsOnset st1.sensitivity st1.minDb st1.debounceMs
          (st1.alpha * rmsOf data + (1 - st1.alpha) * st1.energySMA) (rmsOf data)
          t st1.lastHitTime := by
      rintro ⟨hdb, hlin, hdebc⟩ hle
      refine ⟨?_, ?_, by linarith⟩
      · have hmono : dynamicThresholdDb
            (dbOf (st1.alpha * rmsOf data + (1 - st1.alpha) * st1.energySMA))
            st1.sensitivity st1.minDb ≤
            dynamicThresholdDb
            (dbOf (st1.alpha * rmsOf data + (1 - st1.alpha) * st1.energySMA))
            st2.sensitivity st1.minDb := by
          unfold dynamicThresholdDb
          exact max_le_max (add_le_add_left
            (mul_le_mul_of_nonneg_right hs (by norm_num)) _) le_rfl
        exact lt_of_le_of_lt hmono hdb
      · have := mul_le_mul_of_nonneg_left hs hE0
        linarith
    have hseq1 : (process st1 data t).1.sensitivity = st1.sensitivity := hs1c
    refine ⟨by rw [ha2c, ha1c, ha], by rw [hd2c, hd1c, hd], by rw [hm2c, hm1c, hm],
      by rw [hE2, hE1, hEeq], hs1c, hs2c, ha1c, by rw [hE1]; exact hE0, ?_, ?_, ?_⟩
    · rcases hbr1 with ⟨-, hl, -, -⟩ | ⟨-, hl, -, -⟩
      · exact Or.inr hl
      · exact Or.inl hl
    · rcases hbr2 with ⟨-, hl, -, -⟩ | ⟨-, hl, -, -⟩
      · exact Or.inr hl
      · exact Or.inl hl
    · rcases hbr1 with ⟨hO1, hl1, hq1, -⟩ | ⟨hO1, hl1, hq1, -⟩ <;>
        rcases hbr2 with ⟨hO2, hl2, hq2, -⟩ | ⟨hO2, hl2, hq2, -⟩
      · -- both accept
        rw [hq1, hq2, hl1, hl2]
        rcases hcnt with hlt | ⟨heq, -⟩
        · exact Or.inl (by omega)
        · exact Or.inr ⟨by omega, le_rfl⟩
      · -- laxer accepts, stricter rejects
        rw [hq1, hq2, hl1, hl2]
        have hle : st2.hitSeq ≤ st1.hitSeq := by
          rcases hcnt with h | ⟨h, -⟩ <;> omega
        exact Or.inl (by omega)
      · -- stricter accepts, laxer rejects
        rw [hq1, hq2, hl1, hl2]
        rcases hcnt with hlt | ⟨heq, hleT⟩
        · rcases Nat.lt_or_ge (st2.hitSeq + 1) st1.hitSeq with h | h
          · exact Or.inl h
          · have : st2.hitSeq + 1 = st1.hitSeq := by omega
            exact Or.inr ⟨this, hlt1⟩
        · exact absurd (hOimp hO2 hleT) hO1
      · -- both reject
        rw [hq1, hq2, hl1, hl2]
        exact hcnt

/-- Run-level simulation: with identical initial floor/config apart from
`sensitivity`, over monotone block times no later than which neither run has
already hit, the stricter run's final onset count never exceeds the laxer
run's. -/
lemma run_sensitivity_invariant :
    ∀ (blocks : List (List ℝ × ℝ)) (st1 st2 : State),
      st2.alpha = st1.alpha → st2.debounceMs = st1.debounceMs →
      st2.minDb = st1.minDb → st2.energySMA = st1.energySMA →
      st1.sensitivity ≤ st2.sensitivity → 0 ≤ st1.sensitivity →
      0 ≤ st1.energySMA → 0 ≤ st1.alpha → st1.alpha ≤ 1 →
      (∀ t ∈ blocks.map Prod.snd, st1.lastHitTime ≤ t ∧ st2.lastHitTime ≤ t) →
      List.Pairwise (· ≤ ·) (blocks.map Prod.snd) →
      (st2.hitSeq < st1.hitSeq ∨
        (st2.hitSeq = st1.hitSeq ∧ st1.lastHitTime ≤ st2.lastHitTime)) →
      ((run st2 blocks).1.hitSeq < (run st1 blocks).1.hitSeq ∨
        ((run st2 blocks).1.hitSeq = (run st1 blocks).1.hitSeq ∧
          (run st1 blocks).1.lastHitTime ≤ (run st2 blocks).1.lastHitTime)) := by
  intro blocks
  induction blocks with
  | nil => intro st1 st2 _ _ _ _ _ _ _ _ _ _ _ hcnt; exact hcnt
  | cons hd rest ih =>
    intro st1 st2 ha hdq hm he hs hs0 he0 ha0 ha1 htimes hsort hcnt
    obtain ⟨data, t⟩ := hd
    rw [List.map_cons] at htimes hsort
    obtain ⟨hlt1, hlt2⟩ := htimes t (List.mem_cons_self _ _)
    obtain ⟨hhead, htail⟩ := List.pairwise_cons.mp hsort
    have hstep := step_sensitivity st1 st2 data t ha hdq hm he hs hs0 he0 ha0 ha1
      hlt1 hlt2 hcnt
    obtain ⟨sa, sd, sm, se, ss1, ss2, salpha, sE0, sl1, sl2, scnt⟩ := hstep
    have hrun1 : (run st1 ((data, t) :: rest)).1 =
        (run (process st1 data t).1 rest).1 := rfl
    have hrun2 : (run st2 ((data, t) :: rest)).1 =
        (run (process st2 data t).1 rest).1 := rfl
    rw [hrun1, hrun2]
    apply ih (process st1 data t).1 (process st2 data t).1 sa sd sm se
    · rw [ss1, ss2]; exact hs
    · rw [ss1]; exact hs0
    · exact sE0
    · rw [salpha]; exact ha0
    · rw [salpha]; exact ha1
    · intro t2 ht2
      have hts := htimes t2 (List.mem_cons_of_mem _ ht2)
      have htt2 : t ≤ t2 := hhead t2 ht2
      constructor
      · rcases sl1 with h | h <;> rw [h]
        · exact hts.1
        · exact htt2
      · rcases sl2 with h | h <;> rw [h]
        · exact hts.2
        · exact htt2
    · exact htail
    · exact scnt

end StrokeProcessor

/-- Claim C5 (amended): for a fixed floor, the threshold is monotone
nondecreasing in the sensitivity — strictly increasing whenever the
`minDb` clamp is not in effect at the smaller sensitivity — and over any
fixed block sequence (with nondecreasing times not earlier than the initial
`lastHitTime`) the run at the larger sensitivity accepts at most as many
onsets as the run at the smaller one. -/
theorem c5_threshold_monotonicity (s1 s2 : ℝ) (hs : s1 ≤ s2) :
    (∀ floorDb minDb : ℝ,
        dynamicThresholdDb floorDb s1 minDb ≤ dynamicThresholdDb floorDb s2 minDb) ∧
    (∀ floorDb minDb : ℝ, s1 < s2 → minDb < floorDb + s1 * 6 →
        dynamicThresholdDb floorDb s1 minDb < dynamicThresholdDb floorDb s2 minDb) ∧
    (∀ (st1 : StrokeProcessor.State) (blocks : List (List ℝ × ℝ)),
        st1.sensitivity = s1 → 0 ≤ s1 → 0 ≤ st1.energySMA → 0 ≤ st1.alpha →
        st1.alpha ≤ 1 →
        (∀ t ∈ blocks.map Prod.snd, st1.lastHitTime ≤ t) →
        List.Pairwise (· ≤ ·) (blocks.map Prod.snd) →
        (StrokeProcessor.run { st1 with sensitivity := s2 } blocks).1.hitSeq ≤
          (StrokeProcessor.run st1 blocks).1.hitSeq) := by
  refine ⟨?_, ?_, ?_⟩
  · intro floorDb minDb
    unfold dynamicThresholdDb
    exact max_le_max (add_le_add_left
      (mul_le_mul_of_nonneg_right hs (by norm_num)) _) le_rfl
  · intro floorDb minDb hlt hclamp
    unfold dynamicThresholdDb
    rw [max_eq_left (le_of_lt hclamp)]
    have h1 : floorDb + s1 * 6 < floorDb + s2 * 6 := by nlinarith
    exact lt_of_lt_of_le h1 (le_max_left _ _)
  · intro st1 blocks hsen h0 he0 ha0 ha1 htimes hsort
    have hinv := StrokeProcessor.run_sensitivity_invariant blocks st1
      { st1 with sensitivity := s2 } rfl rfl rfl rfl
      (by rw [hsen]; exact hs) (by rw [hsen]; exact h0) he0 ha0 ha1
      (fun t ht => ⟨htimes t ht, htimes t ht⟩) hsort
      (Or.inr ⟨rfl, le_rfl⟩)
    rcases hinv with h | ⟨h, -⟩
    · exact le_of_lt h
    · exact le_of_eq h

set_option maxRecDepth 4000 in
/-- Witness for the amended C5: hypotheses discharged at sensitivities
1.5 ≤ 2 and a one-block run. -/
theorem c5_witness :
    ((3/2 : ℝ) ≤ 2 ∧ (0:ℝ) ≤ 3/2) ∧
    (StrokeProcessor.run
        { (⟨0, 1/20, 3/2, 35, -55, 0, 1440, none, 0⟩ : StrokeProcessor.State) with
          sensitivity := 2 }
        [(List.replicate 128 (1/100), 1000)]).1.hitSeq ≤
      (StrokeProcessor.run ⟨0, 1/20, 3/2, 35, -55, 0, 1440, none, 0⟩
        [(List.replicate 128 (1/100), 1000)]).1.hitSeq :=
  ⟨⟨by norm_num, by norm_num⟩,
    (c5_threshold_monotonicity (3/2) 2 (by norm_num)).2.2
      ⟨0, 1/20, 3/2, 35, -55, 0, 1440, none, 0⟩
      [(List.replicate 128 (1/100), 1000)] rfl (by norm_num) le_rfl
      (by norm_num) (by norm_num)
      (by intro t ht; simp at ht; rw [ht]; norm_num)
      (by simp)⟩

/-- Claim C5 (counterexample to strictness): over a silent floor (linear floor
0, i.e. `floorDb = -180`), the `minDb` clamp makes the threshold equal at
sensitivities 1.5 and 2, so the threshold is *not* strictly larger at the
larger sensitivity. -/
theorem c5_counterexample :
    dynamicThresholdDb (dbOf 0) (3/2) (-55) = -55 ∧
    dynamicThresholdDb (dbOf 0) 2 (-55) = -55 ∧
    ¬ dynamicThresholdDb (dbOf 0) (3/2) (-55) <
        dynamicThresholdDb (dbOf 0) 2 (-55) := by
  rw [dynamicThresholdDb, dynamicThresholdDb, dbOf_zero]
  refine ⟨max_eq_right (by norm_num), max_eq_right (by norm_num), ?_⟩
  rw [max_eq_right (by norm_num : (-180:ℝ) + (3/2) * 6 ≤ -55),
    max_eq_right (by norm_num : (-180:ℝ) + 2 * 6 ≤ -55)]
  exact lt_irrefl _

/-! ### Claim C7: metronome phase stability -/

namespace Metronome

/-- Within one `schedule` invocation, every beat emitted from a state on the
anchored grid stays on the grid: beat `i` (counting from the entry
`beatCount`) is scheduled at `anchor + (beatCount + i) * secondsPerBeat`,
and the exit state is back on the grid. -/
lemma schedule_run_times (cfg : Config) {st0 : SchedState} {t : ℝ}
    {stF : SchedState} {beats : List Beat}
    (hrun : ScheduleRun cfg st0 t stF beats) :
    ∀ anchor : ℝ,
      st0.nextNoteTime = anchor + (st0.beatCount : ℝ) * secondsPerBeat cfg →
      (∀ i : ℕ, i < beats.length →
          (beats.getD i ⟨0, false⟩).time =
            anchor + ((st0.beatCount + i : ℕ) : ℝ) * secondsPerBeat cfg) ∧
      stF.nextNoteTime = anchor + (stF.beatCount : ℝ) * secondsPerBeat cfg ∧
      stF.beatCount = st0.beatCount + beats.length := by
  induction hrun with
  | @done st t hstop =>
    intro anchor hanchor
    exact ⟨fun i hi => absurd hi (by simp), hanchor, rfl⟩
  | @step st t st' bs hlt htail ih =>
    intro anchor hanchor
    have hinner : (⟨st.nextNoteTime + secondsPerBeat cfg, st.beatCount + 1⟩ :
        SchedState).nextNoteTime =
        anchor + (((⟨st.nextNoteTime + secondsPerBeat cfg, st.beatCount + 1⟩ :
          SchedState).beatCount : ℕ) : ℝ) * secondsPerBeat cfg := by
      show st.nextNoteTime + secondsPerBeat cfg =
        anchor + ((st.beatCount + 1 : ℕ) : ℝ) * secondsPerBeat cfg
      rw [hanchor]
      push_cast
      ring
    obtain ⟨hbeats, hexit, hcount⟩ := ih anchor hinner
    have hcount2 : st'.beatCount = st.beatCount + 1 + bs.length := hcount
    refine ⟨?_, hexit, by rw [List.length_cons]; omega⟩
    intro i hi
    cases i with
    | zero =>
      show st.nextNoteTime = anchor + ((st.beatCount + 0 : ℕ) : ℝ) * secondsPerBeat cfg
      rw [hanchor]
      norm_num
    | succ j =>
      have hj : j < bs.length := by
        rw [List.length_cons] at hi
        omega
      have hb := hbeats j hj
      show (bs.getD j ⟨0, false⟩).time =
        anchor + ((st.beatCount + (j + 1) : ℕ) : ℝ) * secondsPerBeat cfg
      rw [hb]
      congr 1
      push_cast
      ring

/-- Across any sequence of `schedule` invocations, the emitted beats stay on
the anchored arithmetic grid, independently of the invocation times. -/
lemma schedule_trace_times (cfg : Config) {st0 : SchedState} {ts : List ℝ}
    {stF : SchedState} {beats : List Beat}
    (htrace : ScheduleTrace cfg st0 ts stF beats) :
    ∀ anchor : ℝ,
      st0.nextNoteTime = anchor + (st0.beatCount : ℝ) * secondsPerBeat cfg →
      (∀ i : ℕ, i < beats.length →
          (beats.getD i ⟨0, false⟩).time =
            anchor + ((st0.beatCount + i : ℕ) : ℝ) * secondsPerBeat cfg) ∧
      stF.nextNoteTime = anchor + (stF.beatCount : ℝ) * secondsPerBeat cfg ∧
      stF.beatCount = st0.beatCount + beats.length := by
  induction htrace with
  | @nil st =>
    intro anchor hanchor
    exact ⟨fun i hi => absurd hi (by simp), hanchor, rfl⟩
  | @cons st t ts st1 st2 beats1 beats2 hrun htail ih =>
    intro anchor hanchor
    obtain ⟨hb1, hmid, hc1⟩ := schedule_run_times cfg hrun anchor hanchor
    obtain ⟨hb2, hexit, hc2⟩ := ih anchor hmid
    refine ⟨?_, hexit, by rw [List.length_append]; omega⟩
    intro i hi
    by_cases hcase : i < beats1.length
    · rw [List.getD_append _ _ _ _ hcase]
      exact hb1 i hcase
    · push_neg at hcase
      rw [List.getD_append_right _ _ _ _ hcase]
      have hi2 : i - beats1.length < beats2.length := by
        rw [List.length_append] at hi
        omega
      have hb := hb2 (i - beats1.length) hi2
      rw [hb, hc1]
      rw [List.length_append] at hi
      congr 2
      norm_cast
      omega

end Metronome

/-- Claim C7: from the anchor, the scheduled beat timestamps form an
arithmetic progression with common difference
`60 / (tempo * subdivision)` seconds — beat `i` is scheduled exactly at
`anchor + i * (60 / (tempo * subdivision))` — for *every* possible sequence
of scheduling-loop invocation times (so the loop re-entry pattern never
affects the emitted timing). -/
theorem c7_metronome_phase_stability (cfg : Metronome.Config) (anchor : ℝ)
    (ts : List ℝ) (stF : Metronome.SchedState) (beats : List Metronome.Beat)
    (htrace : Metronome.ScheduleTrace cfg ⟨anchor, 0⟩ ts stF beats) :
    ∀ i : ℕ, i < beats.length →
      (beats.getD i ⟨0, false⟩).time =
        anchor + (i : ℝ) * (60 / (cfg.tempo * cfg.subdivision)) := by
  have h := (Metronome.schedule_trace_times cfg htrace anchor (by
    show anchor = anchor + ((0 : ℕ) : ℝ) * Metronome.secondsPerBeat cfg
    norm_num)).1
  intro i hi
  have hb := h i hi
  rw [hb]
  show anchor + ((0 + i : ℕ) : ℝ) * Metronome.secondsPerBeat cfg =
    anchor + (i : ℝ) * (60 / (cfg.tempo * cfg.subdivision))
  unfold Metronome.secondsPerBeat
  rw [div_div]
  norm_num

/-- Witness for C7: a concrete one-invocation trace at tempo 120,
subdivision 1, which schedules one beat at the anchor. -/
theorem c7_witness :
    Metronome.ScheduleTrace ⟨120, 1, 0.6⟩ ⟨0, 0⟩ [0]
      ⟨0 + Metronome.secondsPerBeat ⟨120, 1, 0.6⟩, 0 + 1⟩
      [⟨0, true⟩] ∧
    ([(⟨0, true⟩ : Metronome.Beat)].getD 0 ⟨0, false⟩).time =
      0 + ((0 : ℕ) : ℝ) * (60 / ((120 : ℝ) * ((1 : ℕ) : ℝ))) := by
  have hrun : Metronome.ScheduleRun ⟨120, 1, 0.6⟩ ⟨0, 0⟩ 0
      ⟨0 + Metronome.secondsPerBeat ⟨120, 1, 0.6⟩, 0 + 1⟩ [⟨0, true⟩] := by
    have hdone : Metronome.ScheduleRun ⟨120, 1, 0.6⟩
        ⟨0 + Metronome.secondsPerBeat ⟨120, 1, 0.6⟩, 0 + 1⟩ 0
        ⟨0 + Metronome.secondsPerBeat ⟨120, 1, 0.6⟩, 0 + 1⟩ [] :=
      Metronome.ScheduleRun.done (by
        show ¬ (0 + Metronome.secondsPerBeat ⟨120, 1, 0.6⟩ < 0 + 0.1)
        unfold Metronome.secondsPerBeat
        norm_num)
    exact Metronome.ScheduleRun.step (by norm_num) hdone
  have htrace : Metronome.ScheduleTrace ⟨120, 1, 0.6⟩ ⟨0, 0⟩ [0]
      ⟨0 + Metronome.secondsPerBeat ⟨120, 1, 0.6⟩, 0 + 1⟩ [⟨0, true⟩] := by
    have := Metronome.ScheduleTrace.cons hrun Metronome.ScheduleTrace.nil
    simpa using this
  refine ⟨htrace, ?_⟩
  exact c7_metronome_phase_stability ⟨120, 1, 0.6⟩ 0 [0] _ _ htrace 0 (by norm_num)

/-! ### Claim C8: exponential ramp gain targets -/

/-- Claim C8 (code bug evidence): `createClick` hands the raw `volume` to
`exponentialRampToValueAtTime` as the attack target with no epsilon floor,
so at the admissible volume 0 the ramp target is 0 — not strictly
positive as the claim requires. -/
theorem c8_zero_volume_ramp_target :
    ((0:ℝ) ≤ 0 ∧ (0:ℝ) ≤ 1) ∧
    (Metronome.createClick 0 false 0).attackTarget = 0 ∧
    (0:ℝ) ∈ (Metronome.createClick 0 false 0).rampTargets ∧
    ¬ (∀ g ∈ (Metronome.createClick 0 false 0).rampTargets, 0 < g) := by
  refine ⟨⟨le_rfl, by norm_num⟩, rfl, ?_, ?_⟩
  · show (0:ℝ) ∈ [(0:ℝ), 0.0001]
    exact List.mem_cons_self _ _
  · intro h
    have := h 0 (List.mem_cons_self _ _)
    exact lt_irrefl 0 this

end

end Percussion
